import Mathlib

/-!
Shallow embedding of the boost::bitstream bit-buffer and stream layers
(`boost/bitstream/iob.hpp`, `istream.hpp`, `ostream.hpp`).

`bitfield` is `uintmax_t`, a 64-bit unsigned integer; it is modelled as `Nat`
with explicit truncation `% 2 ^ 64` wherever the C++ arithmetic wraps.
`std::streampos` cursors are only ever assigned values inside
`[eback, egptr]` / `[pbase, epptr]` by `assure_valid_*_pointer`, so they are
modelled as `Nat`; seek targets are computed in `Int` and checked before
being stored, exactly as the source checks them.  A byte of the buffer is an
`unsigned char`; buffers are `List Nat` together with the well-formedness
predicate `bytesWf` (every element `< 256`) that the C++ type system gives
for free.
-/

namespace Bitstream

/-- Width in bits of `bitfield` (`uintmax_t`), `iob.hpp` line 29. -/
def fieldWidth : Nat := 64

/-- Truncation to the 64-bit `bitfield` type. -/
def wmod (x : Nat) : Nat := x % 2 ^ 64

/-- 64-bit bitwise complement (`~` on a `bitfield` value `x < 2^64`). -/
def compl64 (x : Nat) : Nat := 2 ^ 64 - 1 - x

/-- `std::ios_base::seekdir`. -/
inductive Seekdir where
  | way_beg : Seekdir
  | way_cur : Seekdir
  | way_end : Seekdir

/-- `std::ios_base::openmode`, restricted to the two flags the buffer honours. -/
structure Openmode where
  m_in : Bool
  m_out : Bool

def inMode : Openmode := { m_in := true, m_out := false }

def outMode : Openmode := { m_in := false, m_out := true }

/-- The data members of `bitbuf` (`iob.hpp` 979-1023). -/
structure Bitbuf where
  m_buffer : List Nat
  m_gptr : Nat
  m_egptr : Nat
  m_eback : Nat
  m_pptr : Nat
  m_epptr : Nat
  m_pbase : Nat

/-- `iob.hpp` 759-776. -/
def Bitbuf.assure_valid_get_pointer (bb : Bitbuf) (position : Int) :
    Option Nat × Bitbuf :=
  if position < (bb.m_eback : Int) ∨ (bb.m_egptr : Int) < position then (none, bb)
  else (some position.toNat, { bb with m_gptr := position.toNat })

/-- `iob.hpp` 786-803; note that the source member `pbase()` returns 0. -/
def Bitbuf.assure_valid_put_pointer (bb : Bitbuf) (position : Int) :
    Option Nat × Bitbuf :=
  if position < (0 : Int) ∨ (bb.m_epptr : Int) < position then (none, bb)
  else (some position.toNat, { bb with m_pptr := position.toNat })

/-- `iob.hpp` 498-551: when both open-mode flags are selected, the `out`
branch runs second and its result overwrites the returned position. -/
def Bitbuf.seekoff (bb : Bitbuf) (offset : Int) (way : Seekdir)
    (which : Openmode) : Option Nat × Bitbuf :=
  let rin : Option Nat × Bitbuf :=
    if which.m_in then
      match way with
      | Seekdir.way_beg => bb.assure_valid_get_pointer ((bb.m_eback : Int) + offset)
      | Seekdir.way_cur => bb.assure_valid_get_pointer ((bb.m_gptr : Int) + offset)
      | Seekdir.way_end => bb.assure_valid_get_pointer ((bb.m_egptr : Int) + offset)
    else (none, bb)
  if which.m_out then
    match way with
    | Seekdir.way_beg => rin.2.assure_valid_put_pointer ((0 : Int) + offset)
    | Seekdir.way_cur => rin.2.assure_valid_put_pointer ((rin.2.m_pptr : Int) + offset)
    | Seekdir.way_end => rin.2.assure_valid_put_pointer ((rin.2.m_epptr : Int) + offset)
  else rin

/-- `iob.hpp` 561-581. -/
def Bitbuf.seekpos (bb : Bitbuf) (position : Int) (which : Openmode) :
    Option Nat × Bitbuf :=
  let rin : Option Nat × Bitbuf :=
    if which.m_in then bb.assure_valid_get_pointer position else (none, bb)
  if which.m_out then rin.2.assure_valid_put_pointer position else rin

/-- `iob.hpp` 146-149. -/
def Bitbuf.in_avail (bb : Bitbuf) : Nat := bb.m_egptr - bb.m_gptr

/-- `iob.hpp` 892-894: all-ones shifted left by `size - 1` then by 1, then
complemented, producing the right-justified mask of `size` ones. -/
def xs_mask_rj (size : Nat) : Nat :=
  compl64 (wmod ((wmod ((2 ^ 64 - 1) <<< (size - 1))) <<< 1))

/-- `iob.hpp` 898-899. -/
def xs_shift (ptr size : Nat) : Nat := (8 - ((size + ptr % 8) % 8)) % 8

/-- `iob.hpp` 900: the mask shifted into place, wrapping at 64 bits. -/
def xs_mask (ptr size : Nat) : Nat := wmod (xs_mask_rj size <<< xs_shift ptr size)

/-- `iob.hpp` 903. -/
def xs_byte_count (ptr size : Nat) : Nat := (size + xs_shift ptr size + 8 - 1) / 8

/-- The accumulation loop of `get_bits_callback` (`iob.hpp` 856-861):
`byte_count` bytes starting at `byte_index`, concatenated MSB-first into a
64-bit integer (the left shift wraps at 64 bits). -/
def get_accum (buf : List Nat) (byte_index byte_count : Nat) : Nat :=
  (List.range byte_count).foldl
    (fun acc i => wmod (acc <<< 8) ||| buf.getD (byte_index + i) 0) 0

/-- `iob.hpp` 853-865: accumulate `byte_count` bytes MSB-first into a 64-bit
integer, mask, and right-shift. -/
def get_bits_callback (buf : List Nat) (mask shift_amount byte_count byte_index : Nat) :
    Nat :=
  (get_accum buf byte_index byte_count &&& mask) >>> shift_amount

/-- The loop of `put_bits_callback` (`iob.hpp` 944-952): the index counts
down from `byte_count - 1` to 0 while mask and value shift right by 8; each
byte store truncates to `unsigned char`. -/
def put_bits_loop (byte_index : Nat) : Nat → Nat → Nat → List Nat → List Nat
  | mask, value, 0, buf =>
      let b := buf.getD (byte_index + 0) 0
      buf.set (byte_index + 0) ((((b &&& mask) &&& 255) ||| value) &&& 255)
  | mask, value, i + 1, buf =>
      let b := buf.getD (byte_index + (i + 1)) 0
      let buf1 := buf.set (byte_index + (i + 1)) ((((b &&& mask) &&& 255) ||| value) &&& 255)
      put_bits_loop byte_index (mask >>> 8) (value >>> 8) i buf1

/-- `iob.hpp` 939-953. -/
def put_bits_callback (buf : List Nat) (value mask shift_amount byte_count byte_index : Nat) :
    List Nat :=
  put_bits_loop byte_index (compl64 mask) (wmod (value <<< shift_amount))
    (byte_count - 1) buf

/-- The value produced by `xsprocessn_nobump` (`iob.hpp` 880-911) with
`get_bits_callback` once the size guard has passed. -/
def xs_get_value (buf : List Nat) (ptr size : Nat) : Nat :=
  get_bits_callback buf (xs_mask ptr size) (xs_shift ptr size)
    (xs_byte_count ptr size) (ptr / 8)

/-- The buffer produced by `xsprocessn_nobump` with `put_bits_callback` once
the size guard has passed. -/
def xs_put_buffer (buf : List Nat) (value ptr size : Nat) : List Nat :=
  put_bits_callback buf value (xs_mask ptr size) (xs_shift ptr size)
    (xs_byte_count ptr size) (ptr / 8)

/-- `iob.hpp` 922-926 composed with 880-911: returns (value, bits read);
on a failed guard the reference output parameter keeps its old value. -/
def Bitbuf.xsgetn_nobump (bb : Bitbuf) (value size : Nat) : Nat × Nat :=
  if 0 < size ∧ size ≤ bb.m_egptr - bb.m_gptr
  then (xs_get_value bb.m_buffer bb.m_gptr size, size)
  else (value, 0)

/-- `iob.hpp` 617-625: read then `gbump(bits_read)`. -/
def Bitbuf.xsgetn (bb : Bitbuf) (value size : Nat) : Nat × Nat × Bitbuf :=
  let r := bb.xsgetn_nobump value size
  (r.1, r.2, (bb.seekoff (r.2 : Int) Seekdir.way_cur inMode).2)

/-- `iob.hpp` 964-968 composed with 880-911. -/
def Bitbuf.xsputn_nobump (bb : Bitbuf) (value size : Nat) : List Nat × Nat :=
  if 0 < size ∧ size ≤ bb.m_epptr - bb.m_pptr
  then (xs_put_buffer bb.m_buffer value bb.m_pptr size, size)
  else (bb.m_buffer, 0)

/-- `iob.hpp` 676-684: write then `pbump(bits_read)`. -/
def Bitbuf.xsputn (bb : Bitbuf) (value size : Nat) : Nat × Bitbuf :=
  let r := bb.xsputn_nobump value size
  let bb1 := { bb with m_buffer := r.1 }
  (r.2, (bb1.seekoff (r.2 : Int) Seekdir.way_cur outMode).2)

/-- `iob.hpp` 207-210: returns (ok, value, buffer). -/
def Bitbuf.sbumpb (bb : Bitbuf) (value : Nat) : Bool × Nat × Bitbuf :=
  let r := bb.xsgetn value 1
  (r.2.1 == 1, r.1, r.2.2)

/-- `iob.hpp` 218-228: bump, and seek back one only when the bump FAILED
(the condition in the source is `if (!okay)`). -/
def Bitbuf.sgetb (bb : Bitbuf) (value : Nat) : Bool × Nat × Bitbuf :=
  let r := bb.sbumpb value
  if r.1 then r
  else (r.1, r.2.1, (r.2.2.seekoff (-1) Seekdir.way_cur inMode).2)

/-- `iob.hpp` 284-307: write one bit in place and bump the put pointer;
the `m_pptr` sentinel comparison with -1 can never hold in this model
because stored positions are always in range. -/
def Bitbuf.sputb (bb : Bitbuf) (b : Nat) : Bool × Bitbuf :=
  if bb.m_pptr = bb.m_epptr then (false, bb)
  else
    let shift := (8 - ((1 + bb.m_pptr % 8) % 8)) % 8
    let mask := compl64 (wmod (1 <<< shift))
    let bp := bb.m_pptr / 8
    let dst := (bb.m_buffer.getD bp 0 &&& mask) &&& 255
    let src := (b &&& 1) <<< shift
    let bb1 := { bb with m_buffer := bb.m_buffer.set bp ((dst ||| src) &&& 255) }
    (true, (bb1.seekoff 1 Seekdir.way_cur outMode).2)

/-- `bitbuf(buffer, size, ios_base::in | ios_base::out)`, `iob.hpp` 74-101. -/
def Bitbuf.ofBytes (buf : List Nat) (size : Nat) : Bitbuf :=
  { m_buffer := buf, m_gptr := 0, m_egptr := size, m_eback := 0,
    m_pptr := 0, m_epptr := size, m_pbase := 0 }

/-- Stream state mask: {badbit, eofbit, failbit}; goodbit is all clear. -/
structure Iostate where
  badb : Bool
  eofb : Bool
  failb : Bool
  deriving DecidableEq

def goodbit : Iostate := { badb := false, eofb := false, failb := false }

def badbitOnly : Iostate := { badb := true, eofb := false, failb := false }

/-- `iob.hpp` 1069-1072: `rdstate() == 0`. -/
def Iostate.good (s : Iostate) : Bool := !s.badb && !s.eofb && !s.failb

/-- `iob.hpp` 1097-1100: failbit or badbit. -/
def Iostate.fail (s : Iostate) : Bool := s.failb || s.badb

def Iostate.setBad (s : Iostate) : Iostate := { s with badb := true }

def Iostate.setEof (s : Iostate) : Iostate := { s with eofb := true }

def Iostate.setFail (s : Iostate) : Iostate := { s with failb := true }

/-- The stream base class `iob` (`iob.hpp` 1029-1266); its buffer pointer
may be null. -/
structure Iob where
  m_bitbuf : Option Bitbuf
  m_state : Iostate

/-- `iob.hpp` 1223-1227. -/
def Iob.init (bb : Option Bitbuf) : Iob :=
  { m_bitbuf := bb, m_state := if bb.isNone then badbitOnly else goodbit }

/-- `iob.hpp` 1178-1183: reseat the buffer handle, returning the previous
one; the state is re-initialised unconditionally. -/
def Iob.rdbuf_set (io : Iob) (bb : Option Bitbuf) : Option Bitbuf × Iob :=
  (io.m_bitbuf, Iob.init bb)

/-- `istream` (`istream.hpp` 25-406) over a non-null buffer. -/
structure Istream where
  m_bitbuf : Bitbuf
  m_state : Iostate
  m_gcount : Nat
  m_gvalue : Nat
  m_repeat : Nat

/-- `istream(bitbuf *bb)` with a non-null buffer, `istream.hpp` 31-34. -/
def Istream.fresh (buf : List Nat) (size : Nat) : Istream :=
  { m_bitbuf := Bitbuf.ofBytes buf size, m_state := goodbit,
    m_gcount := 0, m_gvalue := 0, m_repeat := 0 }

/-- `istream.hpp` 230-257. -/
def Istream.read (is : Istream) (value bits : Nat) : Istream :=
  let r := is.m_bitbuf.xsgetn value bits
  if r.2.1 ≠ bits then
    let st := if r.2.2.in_avail < bits then is.m_state.setEof else is.m_state
    { is with m_bitbuf := r.2.2, m_state := st.setFail, m_gcount := 0, m_gvalue := 0 }
  else
    let st := if r.2.2.in_avail = 0 then is.m_state.setEof else is.m_state
    { is with m_bitbuf := r.2.2, m_state := st, m_gcount := r.2.1, m_gvalue := r.1 }

/-- `static_cast<int>` of a 64-bit `bitfield`: two's-complement narrowing
to the 32-bit `int` of the library's target platforms. -/
def toInt32 (x : Nat) : Int :=
  if x % 2 ^ 32 < 2 ^ 31 then ((x % 2 ^ 32 : Nat) : Int)
  else ((x % 2 ^ 32 : Nat) : Int) - 2 ^ 32

/-- `istream.hpp` 62-76: `int get()`, whose out-parameter is `m_gvalue`
itself; the return value is (stream, returned int), the int being
`static_cast<int>(m_gvalue)`. -/
def Istream.get (is : Istream) : Istream × Int :=
  let r := is.m_bitbuf.sbumpb is.m_gvalue
  if r.1 then
    ({ is with m_bitbuf := r.2.2, m_gvalue := r.2.1, m_gcount := 1 }, toInt32 r.2.1)
  else
    let st := (is.m_state.setFail).setEof
    ({ is with m_bitbuf := r.2.2, m_gvalue := r.2.1, m_state := st, m_gcount := 0 }, toInt32 r.2.1)

/-- `istream.hpp` 208-221. -/
def Istream.peek (is : Istream) : Istream × Nat :=
  let r := is.m_bitbuf.sgetb is.m_gvalue
  if r.1 then
    ({ is with m_bitbuf := r.2.2, m_gvalue := r.2.1, m_gcount := 1 }, r.2.1)
  else
    let st := is.m_state.setEof
    ({ is with m_bitbuf := r.2.2, m_gvalue := r.2.1, m_state := st, m_gcount := 0 }, r.2.1)

/-- `istream.hpp` 126-139. -/
def Istream.ignore (is : Istream) (bits : Nat) : Istream :=
  let r := is.m_bitbuf.seekoff (bits : Int) Seekdir.way_cur inMode
  if r.1.isNone then
    { is with m_bitbuf := r.2, m_state := is.m_state.setEof, m_gcount := 0 }
  else { is with m_bitbuf := r.2, m_gcount := bits }

/-- `istream.hpp` 170-175: `istream &repeat(size_t)`. -/
def Istream.set_repeat (is : Istream) (r : Nat) : Istream := { is with m_repeat := r }

/-- `istream.hpp` 558-569 for an unsigned integral of bit width `w`:
a default-constructed `bitfield` local receives the field (0 is passed as
its dead initial value: `read` overwrites it on both paths), and the
`static_cast` to the `w`-bit destination type truncates. -/
def Istream.extract_scalar (is : Istream) (w : Nat) : Istream × Nat :=
  let r := is.read 0 w
  (r, r.m_gvalue % 2 ^ w)

/-- `istream.hpp` 670-683: extraction into a fixed-size container of
`w`-bit scalars, element by element in iterator order. -/
def extract_fixed (w : Nat) : Istream → List Nat → Istream × List Nat
  | is, [] => (is, [])
  | is, _ :: rest =>
    let r := is.extract_scalar w
    let r2 := extract_fixed w r.1 rest
    (r2.1, r.2 :: r2.2)

/-- `std::vector`-style `resize`: truncate, or pad with value-initialized
(zero) elements. -/
def list_resize (c : List Nat) (n : Nat) : List Nat :=
  c.take n ++ List.replicate (n - c.length) 0

/-- `istream.hpp` 636-655: extraction into a resizable container:
`c.resize(repeat() == 0 ? c.size() : repeat())`, then element-wise
extraction in iterator order. -/
def Istream.extract_resizable (is : Istream) (c : List Nat) (w : Nat) :
    Istream × List Nat :=
  let c1 := list_resize c (if is.m_repeat = 0 then c.length else is.m_repeat)
  extract_fixed w is c1

/-- `ostream` (`ostream.hpp` 24-214) over a non-null buffer. -/
structure Ostream where
  m_bitbuf : Bitbuf
  m_state : Iostate
  m_repeat : Nat

def Ostream.fresh (buf : List Nat) (size : Nat) : Ostream :=
  { m_bitbuf := Bitbuf.ofBytes buf size, m_state := goodbit, m_repeat := 0 }

/-- `ostream.hpp` 54-62. -/
def Ostream.put (os : Ostream) (value : Nat) : Ostream :=
  if os.m_state.good then
    let r := os.m_bitbuf.sputb value
    if r.1 then { os with m_bitbuf := r.2 }
    else { os with m_bitbuf := r.2, m_state := os.m_state.setFail }
  else os

/-- `ostream.hpp` 132-140: a zero return from `sputn` sets badbit. -/
def Ostream.write (os : Ostream) (value bits : Nat) : Ostream :=
  if os.m_state.good then
    let r := os.m_bitbuf.xsputn value bits
    if r.1 = 0 then { os with m_bitbuf := r.2, m_state := os.m_state.setBad }
    else { os with m_bitbuf := r.2 }
  else os

/-- Bit `q` of the buffer in big-endian bit order (spec glossary): bit 0 is
the most-significant bit of byte 0. -/
def bitAt (buf : List Nat) (q : Nat) : Nat :=
  (buf.getD (q / 8) 0 >>> (7 - q % 8)) &&& 1

/-- Modelled from the spec's words: "the right-justified integer whose bit i
(from the most significant of the n bits) is bit g+i of the buffer". -/
def specField (buf : List Nat) (g n : Nat) : Nat :=
  (List.range n).foldl (fun acc i => 2 * acc + bitAt buf (g + i)) 0

/-- Well-formed byte buffer: every element fits in `unsigned char`. -/
def bytesWf (buf : List Nat) : Prop := ∀ b ∈ buf, b < 256

/-- Invariant of the get area (`iob.hpp` data-member notes and §3 of the
spec): `eback = 0 ≤ gptr ≤ egptr ≤ 8 * bytes`. -/
def Bitbuf.WfG (bb : Bitbuf) : Prop :=
  bb.m_eback = 0 ∧ bb.m_gptr ≤ bb.m_egptr ∧
    bb.m_egptr ≤ 8 * bb.m_buffer.length ∧ bytesWf bb.m_buffer

/-- Invariant of the put area. -/
def Bitbuf.WfP (bb : Bitbuf) : Prop :=
  bb.m_pptr ≤ bb.m_epptr ∧ bb.m_epptr ≤ 8 * bb.m_buffer.length ∧
    bytesWf bb.m_buffer

instance : DecidablePred bytesWf := fun buf => by
  unfold bytesWf; infer_instance

instance (bb : Bitbuf) : Decidable bb.WfG := by
  unfold Bitbuf.WfG; infer_instance

instance (bb : Bitbuf) : Decidable bb.WfP := by
  unfold Bitbuf.WfP; infer_instance

/-! ### Arithmetic facts about the shift, byte count, and masks -/

theorem xs_shift_lt (ptr size : Nat) : xs_shift ptr size < 8 := by
  unfold xs_shift; omega

theorem xs_shift_sum_mod (ptr size : Nat) :
    (ptr % 8 + size + xs_shift ptr size) % 8 = 0 := by
  unfold xs_shift; omega

theorem xs_byte_count_mul (ptr size : Nat) :
    8 * xs_byte_count ptr size = ptr % 8 + size + xs_shift ptr size := by
  unfold xs_byte_count xs_shift; omega

theorem xs_fit_of_fit (ptr size : Nat) (hfit : ptr % 8 + size ≤ 64) :
    size + xs_shift ptr size ≤ 64 ∧ 8 * xs_byte_count ptr size ≤ 64 := by
  unfold xs_byte_count xs_shift; omega

theorem all_ones_mul_pow_mod (k : Nat) (hk : k ≤ 64) :
    (2 ^ 64 - 1) * 2 ^ k % 2 ^ 64 = 2 ^ 64 - 2 ^ k := by
  have h1 : (2 : Nat) ^ k ≤ 2 ^ 64 := Nat.pow_le_pow_right (by norm_num) hk
  have h2 : 0 < (2 : Nat) ^ k := Nat.two_pow_pos k
  have h3 : (2 : Nat) ^ 64 ≤ 2 ^ 64 * 2 ^ k := Nat.le_mul_of_pos_right _ h2
  have e : (2 ^ 64 - 1) * 2 ^ k = 2 ^ 64 * (2 ^ k - 1) + (2 ^ 64 - 2 ^ k) := by
    have e1 : (2 ^ 64 - 1) * 2 ^ k = 2 ^ 64 * 2 ^ k - 1 * 2 ^ k := Nat.sub_mul _ _ _
    have e2 : (2 : Nat) ^ 64 * (2 ^ k - 1) = 2 ^ 64 * 2 ^ k - 2 ^ 64 := by
      have := Nat.mul_pred (2 ^ 64) (2 ^ k)
      omega
    omega
  rw [e, Nat.mul_add_mod]
  exact Nat.mod_eq_of_lt (by omega)

theorem xs_mask_rj_eq (size : Nat) (h0 : 0 < size) (h64 : size ≤ 64) :
    xs_mask_rj size = 2 ^ size - 1 := by
  have h1 : (2 : Nat) ^ size ≤ 2 ^ 64 := Nat.pow_le_pow_right (by norm_num) h64
  have h2 : 0 < (2 : Nat) ^ size := Nat.two_pow_pos size
  have hps : (2 : Nat) ^ (size - 1) * 2 = 2 ^ size := by
    have e : size - 1 + 1 = size := by omega
    calc 2 ^ (size - 1) * 2 = 2 ^ (size - 1 + 1) := (Nat.pow_succ 2 (size - 1)).symm
      _ = 2 ^ size := by rw [e]
  unfold xs_mask_rj wmod compl64
  rw [Nat.shiftLeft_eq, Nat.shiftLeft_eq, all_ones_mul_pow_mod (size - 1) (by omega)]
  have e2 : (2 ^ 64 - 2 ^ (size - 1)) * 2 ^ 1 % 2 ^ 64 = 2 ^ 64 - 2 ^ size := by
    have h3 : (2 : Nat) ^ (size - 1) ≤ 2 ^ 64 := Nat.pow_le_pow_right (by norm_num) (by omega)
    have e3 : (2 ^ 64 - 2 ^ (size - 1)) * 2 ^ 1 = 2 ^ 64 + (2 ^ 64 - 2 ^ size) := by
      have : (2 : Nat) ^ 1 = 2 := by norm_num
      rw [this]; omega
    rw [e3, Nat.add_mod_left]
    exact Nat.mod_eq_of_lt (by omega)
  rw [e2]
  omega

theorem xs_mask_eq (ptr size : Nat) (h0 : 0 < size) (hfit : ptr % 8 + size ≤ 64) :
    xs_mask ptr size = 2 ^ xs_shift ptr size * (2 ^ size - 1) := by
  have h64 : size ≤ 64 := by omega
  have hss : size + xs_shift ptr size ≤ 64 := (xs_fit_of_fit ptr size hfit).1
  unfold xs_mask wmod
  rw [xs_mask_rj_eq size h0 h64, Nat.shiftLeft_eq]
  rw [Nat.mul_comm]
  apply Nat.mod_eq_of_lt
  calc 2 ^ xs_shift ptr size * (2 ^ size - 1)
      < 2 ^ xs_shift ptr size * 2 ^ size := by
        have h2 := Nat.two_pow_pos size
        exact mul_lt_mul_of_pos_left (by omega) (Nat.two_pow_pos _)
    _ = 2 ^ (xs_shift ptr size + size) := (Nat.pow_add 2 _ _).symm
    _ ≤ 2 ^ 64 := Nat.pow_le_pow_right (by norm_num) (by omega)

/-! ### Bytes and bits -/

theorem bytesWf_getD {buf : List Nat} (h : bytesWf buf) (i : Nat) :
    buf.getD i 0 < 256 := by
  rcases Nat.lt_or_ge i buf.length with hi | hi
  · rw [List.getD_eq_getElem?_getD, List.getElem?_eq_getElem hi]
    exact h _ (List.getElem_mem hi)
  · rw [List.getD_eq_getElem?_getD, List.getElem?_eq_none hi]
    norm_num

theorem shiftRight_and_one (x d : Nat) :
    x >>> d &&& 1 = if x.testBit d then 1 else 0 := by
  rw [Nat.and_one_is_mod, Nat.testBit_to_div_mod, Nat.shiftRight_eq_div_pow]
  rcases Nat.mod_two_eq_zero_or_one (x / 2 ^ d) with h | h <;> simp [h]

theorem bitAt_eq_ite (buf : List Nat) (q : Nat) :
    bitAt buf q = if (buf.getD (q / 8) 0).testBit (7 - q % 8) then 1 else 0 := by
  unfold bitAt; exact shiftRight_and_one _ _

theorem bitAt_lt_two (buf : List Nat) (q : Nat) : bitAt buf q < 2 := by
  rw [bitAt_eq_ite]
  rcases (buf.getD (q / 8) 0).testBit (7 - q % 8) <;> simp

theorem bitAt_decide (buf : List Nat) (q : Nat) :
    decide (bitAt buf q = 1) = (buf.getD (q / 8) 0).testBit (7 - q % 8) := by
  rw [bitAt_eq_ite]
  rcases h : (buf.getD (q / 8) 0).testBit (7 - q % 8) <;> simp

/-! ### The MSB-first byte accumulator -/

theorem get_accum_zero (buf : List Nat) (bi : Nat) : get_accum buf bi 0 = 0 := rfl

theorem get_accum_succ (buf : List Nat) (bi cnt : Nat) :
    get_accum buf bi (cnt + 1) =
      wmod (get_accum buf bi cnt <<< 8) ||| buf.getD (bi + cnt) 0 := by
  unfold get_accum
  rw [List.range_succ, List.foldl_append, List.foldl_cons, List.foldl_nil]

theorem get_accum_testBit (buf : List Nat) (bi : Nat) (hwf : bytesWf buf) :
    ∀ cnt, 8 * cnt ≤ 64 → ∀ t,
      (get_accum buf bi cnt).testBit t =
        (decide (t < 8 * cnt) &&
          (buf.getD (bi + (cnt - 1 - t / 8)) 0).testBit (t % 8)) := by
  intro cnt
  induction cnt with
  | zero => intro _ t; simp [get_accum_zero]
  | succ cnt ih =>
    intro hle t
    have hb : buf.getD (bi + cnt) 0 < 256 := bytesWf_getD hwf _
    rw [get_accum_succ]
    unfold wmod
    rw [Nat.testBit_or, Nat.testBit_mod_two_pow, Nat.testBit_shiftLeft]
    rcases Nat.lt_or_ge t 8 with ht | ht
    · have h1 : t < 8 * (cnt + 1) := by omega
      have h2 : t / 8 = 0 := by omega
      have h3 : t % 8 = t := by omega
      have h4 : ¬ (t ≥ 8) := by omega
      have h5 : t < 64 := by omega
      simp [h1, h2, h3, h4, h5, Nat.add_sub_cancel]
    · have hbt : (buf.getD (bi + cnt) 0).testBit t = false := by
        apply Nat.testBit_lt_two_pow
        calc buf.getD (bi + cnt) 0 < 256 := hb
          _ ≤ 2 ^ t := by
            have h256 : (256 : Nat) = 2 ^ 8 := by norm_num
            rw [h256]; exact Nat.pow_le_pow_right (by norm_num) ht
      rw [ih (by omega) (t - 8), hbt]
      rcases Nat.lt_or_ge t (8 * (cnt + 1)) with ht2 | ht2
      · have h1 : t < 64 := by omega
        have h2 : t - 8 < 8 * cnt := by omega
        have h3 : cnt - 1 - (t - 8) / 8 = cnt + 1 - 1 - t / 8 := by omega
        have h4 : (t - 8) % 8 = t % 8 := by omega
        simp [h1, h2, h3, h4, ht, ht2]
      · have h2 : ¬ (t - 8 < 8 * cnt) := by omega
        have h6 : ¬ (t < 8 * (cnt + 1)) := by omega
        simp [h2, h6]

/-! ### The specified field value -/

theorem specField_zero (buf : List Nat) (g : Nat) : specField buf g 0 = 0 := rfl

theorem specField_succ (buf : List Nat) (g n : Nat) :
    specField buf g (n + 1) = 2 * specField buf g n + bitAt buf (g + n) := by
  unfold specField
  rw [List.range_succ, List.foldl_append, List.foldl_cons, List.foldl_nil]

theorem specField_lt (buf : List Nat) (g n : Nat) : specField buf g n < 2 ^ n := by
  induction n with
  | zero => simp [specField_zero]
  | succ n ih =>
    rw [specField_succ]
    have := bitAt_lt_two buf (g + n)
    have e : (2 : Nat) ^ (n + 1) = 2 * 2 ^ n := by
      rw [Nat.pow_succ, Nat.mul_comm]
    omega

theorem specField_testBit (buf : List Nat) (g n i : Nat) :
    (specField buf g n).testBit i =
      (decide (i < n) && decide (bitAt buf (g + (n - 1 - i)) = 1)) := by
  induction n generalizing i with
  | zero => simp [specField_zero]
  | succ n ih =>
    rw [specField_succ]
    have hb := bitAt_lt_two buf (g + n)
    rcases i with _ | i
    · have e : (2 * specField buf g n + bitAt buf (g + n)) % 2 = bitAt buf (g + n) := by
        omega
      simp [Nat.testBit_zero, e]
    · rw [Nat.testBit_add_one]
      have e : (2 * specField buf g n + bitAt buf (g + n)) / 2 = specField buf g n := by
        omega
      rw [e, ih i]
      rcases Nat.lt_or_ge i n with h | h
      · have h1 : i + 1 < n + 1 := by omega
        have h2 : n - 1 - i = n + 1 - 1 - (i + 1) := by omega
        simp [h, h1, h2]
      · have h1 : ¬ (i < n) := by omega
        have h2 : ¬ (i + 1 < n + 1) := by omega
        simp [h1, h2]

/-! ### Correctness of field extraction within the 64-bit window -/

theorem xs_get_value_eq_specField (buf : List Nat) (ptr size : Nat)
    (hwf : bytesWf buf) (h0 : 0 < size) (hfit : ptr % 8 + size ≤ 64) :
    xs_get_value buf ptr size = specField buf ptr size := by
  have hs8 := xs_shift_lt ptr size
  have hbc := xs_byte_count_mul ptr size
  have hfit2 := (xs_fit_of_fit ptr size hfit).2
  unfold xs_get_value get_bits_callback
  rw [xs_mask_eq ptr size h0 hfit]
  apply Nat.eq_of_testBit_eq
  intro i
  rw [Nat.testBit_shiftRight, Nat.testBit_and, Nat.testBit_mul_pow_two,
    Nat.testBit_two_pow_sub_one,
    get_accum_testBit buf (ptr / 8) hwf (xs_byte_count ptr size) (by omega),
    specField_testBit]
  have hge : xs_shift ptr size + i ≥ xs_shift ptr size := Nat.le_add_right _ _
  have hcan : xs_shift ptr size + i - xs_shift ptr size = i := by omega
  rcases Nat.lt_or_ge i size with hi | hi
  · have h1 : xs_shift ptr size + i < 8 * xs_byte_count ptr size := by omega
    have e1 : ptr / 8 + (xs_byte_count ptr size - 1 - (xs_shift ptr size + i) / 8) =
        (ptr + (size - 1 - i)) / 8 := by omega
    have e2 : (xs_shift ptr size + i) % 8 = 7 - (ptr + (size - 1 - i)) % 8 := by omega
    rw [bitAt_decide, ← e1, ← e2]
    simp [hge, hcan, hi, h1]
  · have h1 : ¬ (i < size) := by omega
    simp [hcan, h1]

/-! ### The byte-store loop of the field writer -/

theorem getD_set_ite (l : List Nat) (i k a : Nat) :
    (l.set i a).getD k 0 = if i = k ∧ i < l.length then a else l.getD k 0 := by
  rw [List.getD_eq_getElem?_getD, List.getD_eq_getElem?_getD, List.getElem?_set]
  by_cases h : i = k
  · subst h
    by_cases h2 : i < l.length
    · simp [h2]
    · have h3 : l.length ≤ i := by omega
      simp [h2, List.getElem?_eq_none h3]
  · simp [h]

theorem put_bits_loop_length (bi : Nat) :
    ∀ (i mask value : Nat) (buf : List Nat),
      (put_bits_loop bi mask value i buf).length = buf.length := by
  intro i
  induction i with
  | zero => intro mask value buf; unfold put_bits_loop; simp
  | succ i ih => intro mask value buf; unfold put_bits_loop; rw [ih]; simp

theorem put_bits_loop_getD (bi : Nat) :
    ∀ (i mask value : Nat) (buf : List Nat) (k : Nat),
      (put_bits_loop bi mask value i buf).getD k 0 =
        if bi ≤ k ∧ k ≤ bi + i ∧ k < buf.length then
          (((buf.getD k 0 &&& (mask >>> (8 * (i - (k - bi))))) &&& 255) |||
            (value >>> (8 * (i - (k - bi))))) &&& 255
        else buf.getD k 0 := by
  intro i
  induction i with
  | zero =>
    intro mask value buf k
    unfold put_bits_loop
    rw [getD_set_ite]
    by_cases h : bi + 0 = k ∧ bi + 0 < buf.length
    · have h1 : bi ≤ k ∧ k ≤ bi + 0 ∧ k < buf.length := by omega
      have h2 : 8 * (0 - (k - bi)) = 0 := by omega
      rw [if_pos h, if_pos h1, h2]
      have hk : k = bi + 0 := by omega
      subst hk
      simp
    · rw [if_neg h, if_neg (by omega)]
  | succ i ih =>
    intro mask value buf k
    unfold put_bits_loop
    rw [ih, getD_set_ite]
    simp only [List.length_set]
    by_cases hk : k = bi + (i + 1)
    · subst hk
      have h1 : ¬ (bi ≤ bi + (i + 1) ∧ bi + (i + 1) ≤ bi + i ∧
          bi + (i + 1) < buf.length) := by omega
      rw [if_neg h1]
      by_cases h2 : bi + (i + 1) < buf.length
      · have h3 : bi + (i + 1) = bi + (i + 1) ∧ bi + (i + 1) < buf.length := by omega
        have h4 : bi ≤ bi + (i + 1) ∧ bi + (i + 1) ≤ bi + (i + 1) ∧
            bi + (i + 1) < buf.length := by omega
        rw [if_pos h3, if_pos h4]
        have h5 : 8 * (i + 1 - (bi + (i + 1) - bi)) = 0 := by omega
        rw [h5]
        simp
      · rw [if_neg (by omega), if_neg (by omega)]
    · have h5 : ¬ (bi + (i + 1) = k ∧ bi + (i + 1) < buf.length) := by omega
      rw [if_neg h5]
      by_cases h6 : bi ≤ k ∧ k ≤ bi + i ∧ k < buf.length
      · have h7 : bi ≤ k ∧ k ≤ bi + (i + 1) ∧ k < buf.length := by omega
        rw [if_pos h6, if_pos h7]
        have e : 8 * (i + 1 - (k - bi)) = 8 + 8 * (i - (k - bi)) := by omega
        rw [e, Nat.shiftRight_add mask 8, Nat.shiftRight_add value 8]
      · have h8 : ¬ (bi ≤ k ∧ k ≤ bi + (i + 1) ∧ k < buf.length) := by omega
        rw [if_neg h6, if_neg h8]

/-! ### Correctness of field insertion within the 64-bit window -/

theorem xs_put_bitAt (buf : List Nat) (ptr size v : Nat)
    (h0 : 0 < size) (hfit : ptr % 8 + size ≤ 64)
    (hin : ptr + size ≤ 8 * buf.length) (hv : v < 2 ^ size) (q : Nat) :
    bitAt (xs_put_buffer buf v ptr size) q =
      if ptr ≤ q ∧ q < ptr + size then v >>> (size - 1 - (q - ptr)) &&& 1
      else bitAt buf q := by
  have hs8 := xs_shift_lt ptr size
  have hbc := xs_byte_count_mul ptr size
  have hss := (xs_fit_of_fit ptr size hfit).1
  have h8bc := (xs_fit_of_fit ptr size hfit).2
  have hmlt : xs_mask ptr size < 2 ^ 64 := by
    unfold xs_mask wmod; exact Nat.mod_lt _ (by norm_num)
  have hvs : wmod (v <<< xs_shift ptr size) = 2 ^ xs_shift ptr size * v := by
    unfold wmod
    rw [Nat.shiftLeft_eq, Nat.mul_comm]
    apply Nat.mod_eq_of_lt
    calc 2 ^ xs_shift ptr size * v
        < 2 ^ xs_shift ptr size * 2 ^ size :=
          mul_lt_mul_of_pos_left hv (Nat.two_pow_pos _)
      _ = 2 ^ (xs_shift ptr size + size) := (Nat.pow_add 2 _ _).symm
      _ ≤ 2 ^ 64 := Nat.pow_le_pow_right (by norm_num) (by omega)
  have hmaskc : ∀ t, (compl64 (xs_mask ptr size)).testBit t =
      (decide (t < 64) && !((xs_mask ptr size).testBit t)) := by
    intro t
    have e : compl64 (xs_mask ptr size) = 2 ^ 64 - (xs_mask ptr size + 1) := by
      unfold compl64; omega
    rw [e, Nat.testBit_two_pow_sub_succ hmlt]
  have hmaskbit : ∀ t, (xs_mask ptr size).testBit t =
      (decide (t ≥ xs_shift ptr size) &&
        decide (t - xs_shift ptr size < size)) := by
    intro t
    rw [xs_mask_eq ptr size h0 hfit, Nat.testBit_mul_pow_two,
      Nat.testBit_two_pow_sub_one]
  have h255 : (255 : Nat) = 2 ^ 8 - 1 := by norm_num
  unfold xs_put_buffer put_bits_callback
  rw [bitAt_eq_ite, put_bits_loop_getD, hvs]
  by_cases hcond : ptr / 8 ≤ q / 8 ∧
      q / 8 ≤ ptr / 8 + (xs_byte_count ptr size - 1) ∧ q / 8 < buf.length
  · rw [if_pos hcond, h255]
    simp only [Nat.testBit_and, Nat.testBit_or, Nat.testBit_shiftRight,
      Nat.testBit_two_pow_sub_one, hmaskc, hmaskbit, Nat.testBit_mul_pow_two]
    have hr8 : 7 - q % 8 < 8 := by omega
    by_cases hfield : ptr ≤ q ∧ q < ptr + size
    · have hA1 : xs_shift ptr size ≤
          8 * (xs_byte_count ptr size - 1 - (q / 8 - ptr / 8)) + (7 - q % 8) := by
        omega
      have hA2 : 8 * (xs_byte_count ptr size - 1 - (q / 8 - ptr / 8)) + (7 - q % 8) -
          xs_shift ptr size < size := by omega
      have hA3 : 8 * (xs_byte_count ptr size - 1 - (q / 8 - ptr / 8)) + (7 - q % 8) -
          xs_shift ptr size = size - 1 - (q - ptr) := by omega
      have hA4 : ¬ (size ≤ size - 1 - (q - ptr)) := by omega
      rw [if_pos hfield, shiftRight_and_one]
      simp [hr8, hA1, hA2, hA3, hA4]
    · rw [if_neg hfield]
      have hB1 : 8 * (xs_byte_count ptr size - 1 - (q / 8 - ptr / 8)) + (7 - q % 8)
          < 64 := by omega
      by_cases hTs : xs_shift ptr size ≤
          8 * (xs_byte_count ptr size - 1 - (q / 8 - ptr / 8)) + (7 - q % 8)
      · have hB2 : ¬ (8 * (xs_byte_count ptr size - 1 - (q / 8 - ptr / 8)) +
            (7 - q % 8) - xs_shift ptr size < size) := by omega
        have hvbit : v.testBit (8 * (xs_byte_count ptr size - 1 - (q / 8 - ptr / 8)) +
            (7 - q % 8) - xs_shift ptr size) = false := by
          apply Nat.testBit_lt_two_pow
          calc v < 2 ^ size := hv
            _ ≤ 2 ^ _ := Nat.pow_le_pow_right (by norm_num) (by omega)
        rw [bitAt_eq_ite buf q]
        simp [hr8, hB1, hB2, hTs, hvbit]
      · rw [bitAt_eq_ite buf q]
        simp [hr8, hB1, hTs]
  · rw [if_neg hcond]
    have hout : ¬ (ptr ≤ q ∧ q < ptr + size) := by omega
    rw [if_neg hout, bitAt_eq_ite buf q]

theorem put_bits_loop_wf (bi : Nat) :
    ∀ (i mask value : Nat) (buf : List Nat), bytesWf buf →
      bytesWf (put_bits_loop bi mask value i buf) := by
  intro i
  induction i with
  | zero =>
    intro mask value buf hwf
    unfold put_bits_loop
    intro b hb
    rcases List.mem_or_eq_of_mem_set hb with h | h
    · exact hwf _ h
    · have := Nat.and_le_right
        (n := ((buf.getD (bi + 0) 0 &&& mask) &&& 255) ||| value) (m := 255)
      omega
  | succ i ih =>
    intro mask value buf hwf
    unfold put_bits_loop
    apply ih
    intro b hb
    rcases List.mem_or_eq_of_mem_set hb with h | h
    · exact hwf _ h
    · have := Nat.and_le_right
        (n := ((buf.getD (bi + (i + 1)) 0 &&& mask) &&& 255) ||| value) (m := 255)
      omega

theorem xs_put_buffer_wf (buf : List Nat) (v ptr size : Nat) (hwf : bytesWf buf) :
    bytesWf (xs_put_buffer buf v ptr size) := by
  unfold xs_put_buffer put_bits_callback
  exact put_bits_loop_wf _ _ _ _ _ hwf

theorem xs_put_buffer_length (buf : List Nat) (v ptr size : Nat) :
    (xs_put_buffer buf v ptr size).length = buf.length := by
  unfold xs_put_buffer put_bits_callback
  exact put_bits_loop_length _ _ _ _ _

theorem specField_put (buf : List Nat) (ptr size v : Nat)
    (h0 : 0 < size) (hfit : ptr % 8 + size ≤ 64)
    (hin : ptr + size ≤ 8 * buf.length) (hv : v < 2 ^ size) :
    specField (xs_put_buffer buf v ptr size) ptr size = v := by
  apply Nat.eq_of_testBit_eq
  intro i
  rw [specField_testBit]
  rcases Nat.lt_or_ge i size with hi | hi
  · have hq : ptr ≤ ptr + (size - 1 - i) ∧ ptr + (size - 1 - i) < ptr + size := by
      omega
    have hput := xs_put_bitAt buf ptr size v h0 hfit hin hv (ptr + (size - 1 - i))
    rw [if_pos hq] at hput
    have e : size - 1 - (ptr + (size - 1 - i) - ptr) = i := by omega
    rw [e, shiftRight_and_one] at hput
    rw [hput]
    rcases h : v.testBit i <;> simp [h, hi]
  · have hvi : v.testBit i = false := by
      apply Nat.testBit_lt_two_pow
      calc v < 2 ^ size := hv
        _ ≤ 2 ^ i := Nat.pow_le_pow_right (by norm_num) hi
    have h1 : ¬ (i < size) := by omega
    simp [h1, hvi]

/-! ### Seek and read characterizations at the stream layer -/

theorem seekoff_cur_in_valid (bb : Bitbuf) (k : Nat) (heb : bb.m_eback = 0)
    (h : bb.m_gptr + k ≤ bb.m_egptr) :
    bb.seekoff (k : Int) Seekdir.way_cur inMode =
      (some (bb.m_gptr + k), { bb with m_gptr := bb.m_gptr + k }) := by
  unfold Bitbuf.seekoff Bitbuf.assure_valid_get_pointer inMode
  have h1 : ¬ ((bb.m_gptr : Int) + (k : Int) < (bb.m_eback : Int) ∨
      (bb.m_egptr : Int) < (bb.m_gptr : Int) + (k : Int)) := by
    omega
  simp only [if_neg h1]
  have h2 : ((bb.m_gptr : Int) + (k : Int)).toNat = bb.m_gptr + k := by
    omega
  simp [h2]

theorem seekoff_cur_in_invalid (bb : Bitbuf) (k : Nat)
    (h : bb.m_egptr < bb.m_gptr + k) :
    bb.seekoff (k : Int) Seekdir.way_cur inMode = (none, bb) := by
  unfold Bitbuf.seekoff Bitbuf.assure_valid_get_pointer inMode
  have h1 : (bb.m_gptr : Int) + (k : Int) < (bb.m_eback : Int) ∨
      (bb.m_egptr : Int) < (bb.m_gptr : Int) + (k : Int) := by
    right; omega
  simp [if_pos h1]

theorem seekoff_cur_out_valid (bb : Bitbuf) (k : Nat)
    (h : bb.m_pptr + k ≤ bb.m_epptr) :
    bb.seekoff (k : Int) Seekdir.way_cur outMode =
      (some (bb.m_pptr + k), { bb with m_pptr := bb.m_pptr + k }) := by
  unfold Bitbuf.seekoff Bitbuf.assure_valid_put_pointer outMode
  have h1 : ¬ ((bb.m_pptr : Int) + (k : Int) < (0 : Int) ∨
      (bb.m_epptr : Int) < (bb.m_pptr : Int) + (k : Int)) := by
    omega
  simp only [Bool.false_eq_true, if_false, if_neg h1]
  have h2 : ((bb.m_pptr : Int) + (k : Int)).toNat = bb.m_pptr + k := by
    omega
  simp [h2]

theorem bitbuf_eta_g (bb : Bitbuf) : { bb with m_gptr := bb.m_gptr + 0 } = bb := rfl

theorem Istream.read_fail (is : Istream) (v n : Nat)
    (heb : is.m_bitbuf.m_eback = 0) (hle : is.m_bitbuf.m_gptr ≤ is.m_bitbuf.m_egptr)
    (h : is.m_bitbuf.in_avail < n) :
    is.read v n =
      { is with m_state := (is.m_state.setEof).setFail, m_gcount := 0, m_gvalue := 0 } := by
  have hg : ¬ (0 < n ∧ n ≤ is.m_bitbuf.m_egptr - is.m_bitbuf.m_gptr) := by
    unfold Bitbuf.in_avail at h; omega
  simp only [Istream.read, Bitbuf.xsgetn, Bitbuf.xsgetn_nobump, Bitbuf.in_avail,
    if_neg hg]
  rw [seekoff_cur_in_valid is.m_bitbuf 0 heb (by omega)]
  simp only [bitbuf_eta_g]
  unfold Bitbuf.in_avail at h
  rw [if_pos (show (0 : Nat) ≠ n by omega),
    if_pos (show is.m_bitbuf.m_egptr - (is.m_bitbuf.m_gptr + 0) < n by omega)]

theorem Istream.read_success (is : Istream) (v n : Nat)
    (heb : is.m_bitbuf.m_eback = 0) (h0 : 0 < n) (hn : n ≤ is.m_bitbuf.in_avail) :
    is.read v n =
      { is with
        m_bitbuf := { is.m_bitbuf with m_gptr := is.m_bitbuf.m_gptr + n },
        m_state := (if is.m_bitbuf.in_avail = n then is.m_state.setEof else is.m_state),
        m_gcount := n,
        m_gvalue := xs_get_value is.m_bitbuf.m_buffer is.m_bitbuf.m_gptr n } := by
  unfold Bitbuf.in_avail at hn ⊢
  have hg : 0 < n ∧ n ≤ is.m_bitbuf.m_egptr - is.m_bitbuf.m_gptr := ⟨h0, hn⟩
  simp only [Istream.read, Bitbuf.xsgetn, Bitbuf.xsgetn_nobump, if_pos hg]
  rw [seekoff_cur_in_valid is.m_bitbuf n heb (by omega)]
  simp only [Bitbuf.in_avail, if_neg (show ¬ (n ≠ n) by omega)]
  by_cases hz : is.m_bitbuf.m_egptr - is.m_bitbuf.m_gptr = n
  · rw [if_pos (show is.m_bitbuf.m_egptr - (is.m_bitbuf.m_gptr + n) = 0 by omega),
      if_pos hz]
  · rw [if_neg (show ¬ (is.m_bitbuf.m_egptr - (is.m_bitbuf.m_gptr + n) = 0) by omega),
      if_neg hz]

theorem Istream.read_zero (is : Istream) (v : Nat)
    (heb : is.m_bitbuf.m_eback = 0) (hle : is.m_bitbuf.m_gptr ≤ is.m_bitbuf.m_egptr) :
    is.read v 0 =
      { is with
        m_state := (if is.m_bitbuf.in_avail = 0 then is.m_state.setEof else is.m_state),
        m_gcount := 0, m_gvalue := v } := by
  have hg : ¬ ((0 : Nat) < 0 ∧ 0 ≤ is.m_bitbuf.m_egptr - is.m_bitbuf.m_gptr) := by
    omega
  simp only [Istream.read, Bitbuf.xsgetn, Bitbuf.xsgetn_nobump, Bitbuf.in_avail,
    if_neg hg]
  rw [seekoff_cur_in_valid is.m_bitbuf 0 heb (by omega)]
  simp only [bitbuf_eta_g]
  rw [if_neg (show ¬ ((0 : Nat) ≠ 0) by omega)]
  simp only [Nat.add_zero]

theorem Istream.get_fail (is : Istream)
    (heb : is.m_bitbuf.m_eback = 0) (hle : is.m_bitbuf.m_gptr ≤ is.m_bitbuf.m_egptr)
    (h : is.m_bitbuf.in_avail = 0) :
    is.get = ({ is with m_state := (is.m_state.setFail).setEof, m_gcount := 0 }, toInt32 is.m_gvalue) := by
  have hg : ¬ ((0 : Nat) < 1 ∧ 1 ≤ is.m_bitbuf.m_egptr - is.m_bitbuf.m_gptr) := by
    unfold Bitbuf.in_avail at h; omega
  simp only [Istream.get, Bitbuf.sbumpb, Bitbuf.xsgetn, Bitbuf.xsgetn_nobump,
    if_neg hg]
  rw [seekoff_cur_in_valid is.m_bitbuf 0 heb (by omega)]
  simp [bitbuf_eta_g]

theorem Istream.peek_fail_gcount (is : Istream)
    (heb : is.m_bitbuf.m_eback = 0) (hle : is.m_bitbuf.m_gptr ≤ is.m_bitbuf.m_egptr)
    (h : is.m_bitbuf.in_avail = 0) :
    (is.peek).1.m_gcount = 0 ∧ (is.peek).1.m_state.eofb = true := by
  have hg : ¬ ((0 : Nat) < 1 ∧ 1 ≤ is.m_bitbuf.m_egptr - is.m_bitbuf.m_gptr) := by
    unfold Bitbuf.in_avail at h; omega
  simp only [Istream.peek, Bitbuf.sgetb, Bitbuf.sbumpb, Bitbuf.xsgetn,
    Bitbuf.xsgetn_nobump, if_neg hg]
  rw [seekoff_cur_in_valid is.m_bitbuf 0 heb (by omega)]
  simp [Iostate.setEof]

theorem Istream.ignore_fail (is : Istream) (n : Nat)
    (h : is.m_bitbuf.m_egptr < is.m_bitbuf.m_gptr + n) :
    is.ignore n = { is with m_state := is.m_state.setEof, m_gcount := 0 } := by
  unfold Istream.ignore
  rw [seekoff_cur_in_invalid is.m_bitbuf n h]
  simp

theorem Istream.ignore_success (is : Istream) (n : Nat)
    (heb : is.m_bitbuf.m_eback = 0) (h : is.m_bitbuf.m_gptr + n ≤ is.m_bitbuf.m_egptr) :
    is.ignore n =
      { is with
        m_bitbuf := { is.m_bitbuf with m_gptr := is.m_bitbuf.m_gptr + n },
        m_gcount := n } := by
  unfold Istream.ignore
  rw [seekoff_cur_in_valid is.m_bitbuf n heb h]
  simp

/-! ### The repeat count and container extraction -/

theorem Istream.read_set_repeat (is : Istream) (v n r : Nat) :
    (is.set_repeat r).read v n = (is.read v n).set_repeat r := by
  unfold Istream.set_repeat Istream.read Bitbuf.xsgetn Bitbuf.xsgetn_nobump
  dsimp only
  split <;> split <;> rfl

theorem Istream.extract_scalar_set_repeat (is : Istream) (w r : Nat) :
    (is.set_repeat r).extract_scalar w =
      (((is.extract_scalar w).1).set_repeat r, (is.extract_scalar w).2) := by
  unfold Istream.extract_scalar
  rw [Istream.read_set_repeat]
  rfl

theorem extract_fixed_set_repeat (w r : Nat) :
    ∀ (c : List Nat) (is : Istream),
      extract_fixed w (is.set_repeat r) c =
        ((extract_fixed w is c).1.set_repeat r, (extract_fixed w is c).2) := by
  intro c
  induction c with
  | nil => intro is; rfl
  | cons x rest ih =>
    intro is
    show (let p := (is.set_repeat r).extract_scalar w
          let q := extract_fixed w p.1 rest
          (q.1, p.2 :: q.2)) = _
    rw [Istream.extract_scalar_set_repeat]
    simp only
    rw [ih]
    rfl

theorem extract_fixed_length (w : Nat) :
    ∀ (c : List Nat) (is : Istream), (extract_fixed w is c).2.length = c.length := by
  intro c
  induction c with
  | nil => intro is; rfl
  | cons x rest ih =>
    intro is
    show (let p := is.extract_scalar w
          let q := extract_fixed w p.1 rest
          (q.1, p.2 :: q.2)).2.length = _
    simp [ih]

theorem list_resize_length (c : List Nat) (n : Nat) : (list_resize c n).length = n := by
  unfold list_resize
  simp only [List.length_append, List.length_take, List.length_replicate]
  omega

theorem list_resize_self (c : List Nat) : list_resize c c.length = c := by
  unfold list_resize
  simp

theorem extract_fixed_gptr (w : Nat) (h0 : 0 < w) :
    ∀ (c : List Nat) (is : Istream),
      is.m_bitbuf.m_eback = 0 → c.length * w ≤ is.m_bitbuf.in_avail →
      (extract_fixed w is c).1.m_bitbuf =
        { is.m_bitbuf with m_gptr := is.m_bitbuf.m_gptr + c.length * w } := by
  intro c
  induction c with
  | nil =>
    intro is heb hav
    show is.m_bitbuf = _
    simp
  | cons x rest ih =>
    intro is heb hav
    unfold Bitbuf.in_avail at hav
    have hlen : (x :: rest).length * w = w + rest.length * w := by
      simp [List.length_cons]; ring
    rw [hlen] at hav
    have hw : w ≤ is.m_bitbuf.in_avail := by
      unfold Bitbuf.in_avail; omega
    show (extract_fixed w ((is.extract_scalar w).1) rest).1.m_bitbuf = _
    have hsc : (is.extract_scalar w).1 = is.read 0 w := rfl
    have hih := ih
      { is with
        m_bitbuf := { is.m_bitbuf with m_gptr := is.m_bitbuf.m_gptr + w },
        m_state := (if is.m_bitbuf.in_avail = w then is.m_state.setEof else is.m_state),
        m_gcount := w,
        m_gvalue := xs_get_value is.m_bitbuf.m_buffer is.m_bitbuf.m_gptr w }
      heb
      (by
        show rest.length * w ≤ is.m_bitbuf.m_egptr - (is.m_bitbuf.m_gptr + w)
        omega)
    rw [hsc, Istream.read_success is 0 w heb h0 hw, hih]
    dsimp only
    have e2 : is.m_bitbuf.m_gptr + w + rest.length * w =
        is.m_bitbuf.m_gptr + (x :: rest).length * w := by rw [hlen]; omega
    rw [e2]

/-! ### Output stream basics -/

theorem Iostate.good_false_of_fail (s : Iostate) (h : s.fail = true) :
    s.good = false := by
  rcases s with ⟨b, e, f⟩
  unfold Iostate.fail at h
  unfold Iostate.good
  cases b <;> cases f <;> simp_all

theorem Ostream.put_nogood (os : Ostream) (b : Nat)
    (h : os.m_state.good = false) : os.put b = os := by
  unfold Ostream.put
  rw [h]
  simp

theorem Ostream.write_nogood (os : Ostream) (v n : Nat)
    (h : os.m_state.good = false) : os.write v n = os := by
  unfold Ostream.write
  rw [h]
  simp

theorem bitbuf_eta_p (bb : Bitbuf) : { bb with m_pptr := bb.m_pptr + 0 } = bb := rfl

theorem Ostream.write_zero (os : Ostream) (v : Nat)
    (hg : os.m_state.good = true)
    (hpe : os.m_bitbuf.m_pptr ≤ os.m_bitbuf.m_epptr) :
    os.write v 0 = { os with m_state := os.m_state.setBad } := by
  have hng : ¬ ((0 : Nat) < 0 ∧ 0 ≤ os.m_bitbuf.m_epptr - os.m_bitbuf.m_pptr) := by
    omega
  simp only [Ostream.write, Bitbuf.xsputn, Bitbuf.xsputn_nobump, hg, if_true,
    if_neg hng]
  have e : ({ os.m_bitbuf with m_buffer := os.m_bitbuf.m_buffer } : Bitbuf) =
      os.m_bitbuf := rfl
  rw [e, seekoff_cur_out_valid os.m_bitbuf 0 (by omega)]
  simp [bitbuf_eta_p]

/-! ### Claim C1 -/

/-- C1 counterexample: extracting n = 63 bits at get position g = 2 (so
shift = 7 and n + shift > 64) from nine 0xFF bytes yields 2^57 - 1, not the
actual 63-bit field 2^63 - 1: the 64-bit accumulator and mask drop the
field's six most significant bits, so the algorithm's result does not equal
the right-justified field value for every 0 < n < field_width. -/
theorem c1_counterexample :
    xs_get_value (List.replicate 9 255) 2 63 = 2 ^ 57 - 1 ∧
      specField (List.replicate 9 255) 2 63 = 2 ^ 63 - 1 ∧
      xs_get_value (List.replicate 9 255) 2 63 ≠
        specField (List.replicate 9 255) 2 63 := by
  refine ⟨by decide, by decide, by decide⟩

/-- C1 (amended): for every bit count n with 0 < n < field_width and every
get-cursor position g with n bits available, provided additionally
(g mod 8) + n ≤ field_width (so that the shifted mask and the MSB-first
accumulation fit the 64-bit bitfield), reading n bits by the
mask/shift/accumulate algorithm of xsprocessn_nobump + get_bits_callback
reports n bits read and materializes exactly the right-justified integer
whose bit i (from the most significant of the n bits) is bit g+i of the
buffer in big-endian bit order. -/
theorem c1_read_materializes_field (bb : Bitbuf) (v n : Nat)
    (hwf : bytesWf bb.m_buffer) (h0 : 0 < n) (_h64 : n < fieldWidth)
    (havail : n ≤ bb.in_avail) (hfit : bb.m_gptr % 8 + n ≤ fieldWidth) :
    bb.xsgetn_nobump v n = (specField bb.m_buffer bb.m_gptr n, n) := by
  unfold fieldWidth at hfit
  unfold Bitbuf.in_avail at havail
  unfold Bitbuf.xsgetn_nobump
  rw [if_pos ⟨h0, havail⟩,
    xs_get_value_eq_specField bb.m_buffer bb.m_gptr n hwf h0 hfit]

/-- C1 witness: reading 8 bits at position 4 of [0x12, 0x34] materializes
the spec field, whose value is 0x23. -/
theorem c1_witness :
    ({ Bitbuf.ofBytes [18, 52] 16 with m_gptr := 4 } : Bitbuf).xsgetn_nobump 0 8 =
        (specField [18, 52] 4 8, 8) ∧ specField [18, 52] 4 8 = 35 :=
  ⟨c1_read_materializes_field _ 0 8 (by decide) (by decide) (by decide)
      (by decide) (by decide),
    by decide⟩

/-! ### Claim C2 -/

/-- C2 counterexample: writing the 63-bit value 2^63 - 1 at bit offset 2 of
nine 0xFF bytes zeroes bit 0 of the buffer, which lies outside the written
range [2, 65): put_bits_callback's 64-bit value/mask lose the top byte of
the 9-byte window, so bits outside the field are NOT always preserved. -/
theorem c2_counterexample :
    bitAt (xs_put_buffer (List.replicate 9 255) (2 ^ 63 - 1) 2 63) 0 = 0 ∧
      bitAt (List.replicate 9 255) 0 = 1 := by
  refine ⟨by decide, by decide⟩

/-- C2 (amended): for every value v of width n with 0 < n < field_width,
every starting in-bounds bit offset off with additionally
(off mod 8) + n ≤ field_width (so the shifted value and mask fit the 64-bit
bitfield), and every initial buffer contents, writing v at off and then
reading n bits at off yields v, and every bit position outside
[off, off+n) holds the same value after the write as before it. -/
theorem c2_write_read_roundtrip (buf : List Nat) (off n v : Nat)
    (hwf : bytesWf buf) (h0 : 0 < n) (_h64 : n < fieldWidth)
    (hfit : off % 8 + n ≤ fieldWidth) (hin : off + n ≤ 8 * buf.length)
    (hv : v < 2 ^ n) :
    xs_get_value (xs_put_buffer buf v off n) off n = v ∧
      (∀ q, q < off ∨ off + n ≤ q →
        bitAt (xs_put_buffer buf v off n) q = bitAt buf q) := by
  unfold fieldWidth at hfit
  constructor
  · rw [xs_get_value_eq_specField _ off n (xs_put_buffer_wf buf v off n hwf) h0 hfit]
    exact specField_put buf off n v h0 hfit hin hv
  · intro q hq
    have hbit := xs_put_bitAt buf off n v h0 hfit hin hv q
    rw [if_neg (by omega)] at hbit
    exact hbit

/-- C2 witness: writing the 7-bit value 100 at offset 3 of two zero bytes
and reading it back yields 100, and bit 1 (outside the field) is
unchanged. -/
theorem c2_witness :
    xs_get_value (xs_put_buffer [0, 0] 100 3 7) 3 7 = 100 ∧
      bitAt (xs_put_buffer [0, 0] 100 3 7) 1 = bitAt [0, 0] 1 :=
  ⟨(c2_write_read_roundtrip [0, 0] 3 7 100 (by decide) (by decide) (by decide)
      (by decide) (by decide) (by decide)).1,
    (c2_write_read_roundtrip [0, 0] 3 7 100 (by decide) (by decide) (by decide)
      (by decide) (by decide) (by decide)).2 1 (by omega)⟩

/-! ### Claim C3 -/

/-- C3: for every input stream in good state: a read of n > available bits
sets both fail and eof and leaves the get cursor unchanged (with gcount 0
and a zeroed value); a read of exactly n == available bits (n below the
field width) succeeds, delivers the materialized value, and sets eof but
not fail; and a successful read of n bits advances the get cursor by
exactly n. -/
theorem c3_read_bounds (is : Istream) (hg : is.m_state = goodbit)
    (heb : is.m_bitbuf.m_eback = 0)
    (hle : is.m_bitbuf.m_gptr ≤ is.m_bitbuf.m_egptr) :
    (∀ v n, is.m_bitbuf.in_avail < n →
        (is.read v n).m_state = { badb := false, eofb := true, failb := true } ∧
        (is.read v n).m_bitbuf.m_gptr = is.m_bitbuf.m_gptr ∧
        (is.read v n).m_gcount = 0 ∧ (is.read v n).m_gvalue = 0) ∧
      (∀ v n, n = is.m_bitbuf.in_avail → n < fieldWidth →
        (is.read v n).m_state = { badb := false, eofb := true, failb := false } ∧
        (is.read v n).m_gcount = n ∧
        (is.read v n).m_bitbuf.m_gptr = is.m_bitbuf.m_gptr + n ∧
        (0 < n → (is.read v n).m_gvalue =
          xs_get_value is.m_bitbuf.m_buffer is.m_bitbuf.m_gptr n)) ∧
      (∀ v n, 0 < n → n ≤ is.m_bitbuf.in_avail → n < fieldWidth →
        (is.read v n).m_bitbuf.m_gptr = is.m_bitbuf.m_gptr + n) := by
  refine ⟨?_, ?_, ?_⟩
  · intro v n h
    rw [Istream.read_fail is v n heb hle h, hg]
    exact ⟨rfl, rfl, rfl, rfl⟩
  · intro v n hn _h64
    rcases Nat.eq_zero_or_pos n with h0 | h0
    · subst h0
      rw [Istream.read_zero is v heb hle, if_pos hn.symm, hg]
      exact ⟨rfl, rfl, rfl, fun hc => absurd hc (by omega)⟩
    · rw [Istream.read_success is v n heb h0 (by omega), if_pos hn.symm, hg]
      exact ⟨rfl, rfl, rfl, fun _ => rfl⟩
  · intro v n h0 hn _h64
    rw [Istream.read_success is v n heb h0 hn]

/-- C3 witness over the one-byte buffer [0xA5]: a 9-bit read fails with
fail and eof set; an 8-bit read consumes everything and sets eof only; a
3-bit read advances the cursor to 3. -/
theorem c3_witness :
    ((Istream.fresh [165] 8).read 0 9).m_state =
        { badb := false, eofb := true, failb := true } ∧
      ((Istream.fresh [165] 8).read 0 8).m_gcount = 8 ∧
      ((Istream.fresh [165] 8).read 0 3).m_bitbuf.m_gptr = 3 :=
  ⟨((c3_read_bounds (Istream.fresh [165] 8) rfl rfl (by decide)).1 0 9
      (by decide)).1,
    (((c3_read_bounds (Istream.fresh [165] 8) rfl rfl (by decide)).2.1 0 8
      (by decide) (by decide))).2.1,
    (c3_read_bounds (Istream.fresh [165] 8) rfl rfl (by decide)).2.2 0 3
      (by decide) (by decide) (by decide)⟩

/-! ### Claim C4 -/

/-- C4 counterexample: on a stream whose state has fail set, the input
operation read is NOT a no-op: over the buffer [0xA5] with the get cursor
at 0, read(1) still consumes a bit and advances the cursor to 1 (read,
get, and ignore never consult the state before operating). -/
theorem c4_counterexample :
    ({ Istream.fresh [165] 8 with m_state := goodbit.setFail }).m_state.fail = true ∧
      ({ Istream.fresh [165] 8 with m_state := goodbit.setFail }).m_bitbuf.m_gptr = 0 ∧
      (({ Istream.fresh [165] 8 with m_state := goodbit.setFail }).read 0 1).m_bitbuf.m_gptr = 1 := by
  refine ⟨by decide, by decide, by decide⟩

/-- C4 (amended): on a stream whose state has fail or bad set, the OUTPUT
operations put and write are no-ops: they leave the state bits set, do not
move the put cursor, and do not modify the buffer (the whole stream is
unchanged).  The input operations get, read, and ignore are not guarded by
the stream state. -/
theorem c4_fail_blocks_output_ops (os : Ostream) (h : os.m_state.fail = true) :
    (∀ b, os.put b = os) ∧ (∀ v n, os.write v n = os) := by
  have hgood := Iostate.good_false_of_fail os.m_state h
  exact ⟨fun b => Ostream.put_nogood os b hgood,
    fun v n => Ostream.write_nogood os v n hgood⟩

/-- C4 witness: put and write on a failed output stream leave it
untouched. -/
theorem c4_witness :
    ({ Ostream.fresh [165] 8 with m_state := goodbit.setFail }).put 1 =
        { Ostream.fresh [165] 8 with m_state := goodbit.setFail } ∧
      ({ Ostream.fresh [165] 8 with m_state := goodbit.setFail }).write 5 3 =
        { Ostream.fresh [165] 8 with m_state := goodbit.setFail } :=
  ⟨(c4_fail_blocks_output_ops _ (by decide)).1 1,
    (c4_fail_blocks_output_ops _ (by decide)).2 5 3⟩

/-! ### Claim C5 -/

/-- C5 counterexample: on the buffer [0xA5] = 10100101, after a 2-bit read
the following 3-bit read materializes bits 2..4 = 100b = 4, not 2 as the
scenario claims. -/
theorem c5_counterexample :
    (((Istream.fresh [165] 8).read 0 2).read 0 3).m_gvalue ≠ 2 ∧
      (((Istream.fresh [165] 8).read 0 2).read 0 3).m_gvalue = 4 := by
  refine ⟨by decide, by decide⟩

/-- C5 (amended): starting from a fresh input stream over the one-byte
buffer [0xA5]: a 2-bit read yields 2, a following 3-bit read yields 4, a
following 3-bit read yields 5, and the final state has eof set and fail
not set. -/
theorem c5_scenario :
    ((Istream.fresh [165] 8).read 0 2).m_gvalue = 2 ∧
      (((Istream.fresh [165] 8).read 0 2).read 0 3).m_gvalue = 4 ∧
      ((((Istream.fresh [165] 8).read 0 2).read 0 3).read 0 3).m_gvalue = 5 ∧
      ((((Istream.fresh [165] 8).read 0 2).read 0 3).read 0 3).m_state =
        { badb := false, eofb := true, failb := false } := by
  refine ⟨by decide, by decide, by decide, by decide⟩

/-! ### Claim C6 -/

/-- C6 (code bug): peek does NOT leave the get cursor in place.  sgetb
bumps the cursor and only seeks back when the bump FAILED (the source
condition `if (!okay)` is inverted relative to its own documentation), so
on the buffer [0x80] a successful peek returns bit 1 but advances the
cursor from 0 to 1, and a peek at end-of-stream (cursor 8) fails and moves
the cursor BACK to 7. -/
theorem c6_peek_moves_cursor :
    ((Istream.fresh [128] 8).peek).2 = 1 ∧
      ((Istream.fresh [128] 8).peek).1.m_bitbuf.m_gptr = 1 ∧
      (({ Istream.fresh [128] 8 with
          m_bitbuf := { Bitbuf.ofBytes [128] 8 with m_gptr := 8 } }).peek).1.m_bitbuf.m_gptr = 7 ∧
      (({ Istream.fresh [128] 8 with
          m_bitbuf := { Bitbuf.ofBytes [128] 8 with m_gptr := 8 } }).peek).1.m_state.eofb = true := by
  refine ⟨by decide, by decide, by decide, by decide⟩

/-! ### Claim C7 -/

/-- C7 counterexample: after reading the single byte of [0x01] (gvalue 1),
a further get() fails (failbit set, gcount 0) yet returns 1 - the
previously materialized gvalue - not 0: failed single-bit gets do not zero
the delivered value. -/
theorem c7_counterexample :
    ((((Istream.fresh [1] 8).read 0 8).get).1).m_state.failb = true ∧
      ((((Istream.fresh [1] 8).read 0 8).get).1).m_gcount = 0 ∧
      (((Istream.fresh [1] 8).read 0 8).get).2 = 1 := by
  refine ⟨by decide, by decide, by decide⟩

/-- C7 (amended): every failed input operation (read past the available
bits, get / peek at end, ignore past the end) leaves gcount() = 0, and a
failed n-bit read zeroes the delivered value; the single-bit get(),
however, leaves the previous gvalue in place on failure and returns its
int narrowing (static_cast of the stale gvalue) rather than zero. -/
theorem c7_gcount_zero_on_failure (is : Istream)
    (heb : is.m_bitbuf.m_eback = 0)
    (hle : is.m_bitbuf.m_gptr ≤ is.m_bitbuf.m_egptr) :
    (∀ v n, is.m_bitbuf.in_avail < n →
        (is.read v n).m_gcount = 0 ∧ (is.read v n).m_gvalue = 0) ∧
      (is.m_bitbuf.in_avail = 0 →
        ((is.get).1.m_gcount = 0 ∧ (is.get).1.m_gvalue = is.m_gvalue ∧
            (is.get).2 = toInt32 is.m_gvalue) ∧
          (is.peek).1.m_gcount = 0) ∧
      (∀ n, is.m_bitbuf.m_egptr < is.m_bitbuf.m_gptr + n →
        (is.ignore n).m_gcount = 0) := by
  refine ⟨?_, ?_, ?_⟩
  · intro v n h
    rw [Istream.read_fail is v n heb hle h]
    exact ⟨rfl, rfl⟩
  · intro h
    refine ⟨⟨?_, ?_, ?_⟩, (Istream.peek_fail_gcount is heb hle h).1⟩
    · rw [Istream.get_fail is heb hle h]
    · rw [Istream.get_fail is heb hle h]
    · rw [Istream.get_fail is heb hle h]
  · intro n h
    rw [Istream.ignore_fail is n h]

/-- C7 witness: at end of the buffer [0x01] every failing operation
reports gcount 0, the failed read zeroes its value, and a failed get()
returns the int narrowing of the stale gvalue - which for gvalue 2^32 is
0 even though the gvalue itself is nonzero. -/
theorem c7_witness :
    (({ Istream.fresh [1] 8 with
        m_bitbuf := { Bitbuf.ofBytes [1] 8 with m_gptr := 8 } }).read 0 4).m_gcount = 0 ∧
      (({ Istream.fresh [1] 8 with
        m_bitbuf := { Bitbuf.ofBytes [1] 8 with m_gptr := 8 } }).read 0 4).m_gvalue = 0 ∧
      (({ Istream.fresh [1] 8 with
        m_bitbuf := { Bitbuf.ofBytes [1] 8 with m_gptr := 8 } }).ignore 2).m_gcount = 0 ∧
      (({ Istream.fresh [1] 8 with
        m_bitbuf := { Bitbuf.ofBytes [1] 8 with m_gptr := 8 },
        m_gvalue := 2 ^ 32 }).get).2 = toInt32 (2 ^ 32) ∧
      toInt32 (2 ^ 32) = 0 :=
  ⟨((c7_gcount_zero_on_failure _ rfl (by decide)).1 0 4 (by decide)).1,
    ((c7_gcount_zero_on_failure _ rfl (by decide)).1 0 4 (by decide)).2,
    (c7_gcount_zero_on_failure _ rfl (by decide)).2.2 2 (by decide),
    (((c7_gcount_zero_on_failure _ rfl (by decide)).2.1 (by decide)).1).2.2,
    by decide⟩

/-! ### Claim C8 -/

/-- C8: for every good input stream and element width w: extracting a
resizable container after set_repeat(m) with m > 0 resizes the container
to m elements and extracts m w-bit fields in iterator order (the
extraction coincides with the fixed-size extraction over the resized
container); extracting a resizable container of current size s with repeat
0 extracts s fields without resizing; extracting a fixed-size container
extracts exactly its size in fields regardless of the repeat value (the
repeat count merely rides along), each successful element extraction
advancing the cursor by w. -/
theorem c8_repeat_law (is : Istream) (c : List Nat) (w m : Nat)
    (_hg : is.m_state = goodbit) :
    (0 < m →
        ((is.set_repeat m).extract_resizable c w).2.length = m ∧
        (is.set_repeat m).extract_resizable c w =
          extract_fixed w (is.set_repeat m) (list_resize c m)) ∧
      ((is.set_repeat 0).extract_resizable c w =
          extract_fixed w (is.set_repeat 0) c ∧
        ((is.set_repeat 0).extract_resizable c w).2.length = c.length) ∧
      (∀ r, extract_fixed w (is.set_repeat r) c =
        ((extract_fixed w is c).1.set_repeat r, (extract_fixed w is c).2)) ∧
      (0 < w → is.m_bitbuf.m_eback = 0 → c.length * w ≤ is.m_bitbuf.in_avail →
        (extract_fixed w is c).1.m_bitbuf =
          { is.m_bitbuf with m_gptr := is.m_bitbuf.m_gptr + c.length * w }) := by
  refine ⟨?_, ⟨?_, ?_⟩, ?_, ?_⟩
  · intro hm
    constructor
    · unfold Istream.extract_resizable Istream.set_repeat
      dsimp only
      rw [if_neg (show ¬ (m = 0) by omega), extract_fixed_length,
        list_resize_length]
    · unfold Istream.extract_resizable Istream.set_repeat
      dsimp only
      rw [if_neg (show ¬ (m = 0) by omega)]
  · unfold Istream.extract_resizable Istream.set_repeat
    dsimp only
    rw [if_pos rfl, list_resize_self]
  · unfold Istream.extract_resizable Istream.set_repeat
    dsimp only
    rw [if_pos rfl, list_resize_self, extract_fixed_length]
  · intro r
    exact extract_fixed_set_repeat w r c is
  · intro hw heb hav
    exact extract_fixed_gptr w hw c is heb hav

/-- C8 witness: with repeat 4 over a four-byte buffer the resizable
extraction of 8-bit scalars produces 4 elements, and two 8-bit fixed
extractions advance the cursor by 16 bits. -/
theorem c8_witness :
    (((Istream.fresh [18, 52, 86, 120] 32).set_repeat 4).extract_resizable [0] 8).2.length = 4 ∧
      (extract_fixed 8 (Istream.fresh [18, 52, 86, 120] 32) [0, 0]).1.m_bitbuf =
        { (Istream.fresh [18, 52, 86, 120] 32).m_bitbuf with m_gptr := 16 } :=
  ⟨((c8_repeat_law (Istream.fresh [18, 52, 86, 120] 32) [0] 8 4 rfl).1
      (by decide)).1,
    (c8_repeat_law (Istream.fresh [18, 52, 86, 120] 32) [0, 0] 8 4 rfl).2.2.2
      (by decide) rfl (by decide)⟩

/-! ### Claim C9 -/

/-- C9: for every output stream in good state, write with a bit count of 0
leaves the buffer and put cursor unchanged but sets bad (hence fail): the
bit-level put of zero bits reports 0 bits written, write treats the zero
return as a stream-integrity failure, and the stream is unusable (all
further writes and puts are no-ops) until cleared. -/
theorem c9_zero_width_write (os : Ostream) (v : Nat)
    (hg : os.m_state = goodbit)
    (hpe : os.m_bitbuf.m_pptr ≤ os.m_bitbuf.m_epptr) :
    (os.write v 0).m_bitbuf = os.m_bitbuf ∧
      (os.write v 0).m_state = { badb := true, eofb := false, failb := false } ∧
      (os.write v 0).m_state.fail = true ∧
      (∀ v2 n2, ((os.write v 0).write v2 n2) = os.write v 0) ∧
      (∀ b, ((os.write v 0).put b) = os.write v 0) := by
  have hgb : os.m_state.good = true := by rw [hg]; rfl
  have hz := Ostream.write_zero os v hgb hpe
  rw [hz]
  refine ⟨rfl, ?_, ?_, ?_, ?_⟩
  · show os.m_state.setBad = _
    rw [hg]
    rfl
  · show (os.m_state.setBad).fail = true
    rw [hg]
    rfl
  · intro v2 n2
    apply Ostream.write_nogood
    show (os.m_state.setBad).good = false
    rw [hg]
    rfl
  · intro b
    apply Ostream.put_nogood
    show (os.m_state.setBad).good = false
    rw [hg]
    rfl

/-- C9 witness: a zero-width write on a fresh output stream over [0xAB]
leaves the buffer alone and fails the stream. -/
theorem c9_witness :
    ((Ostream.fresh [171] 8).write 7 0).m_bitbuf = (Ostream.fresh [171] 8).m_bitbuf ∧
      ((Ostream.fresh [171] 8).write 7 0).m_state.fail = true :=
  ⟨(c9_zero_width_write (Ostream.fresh [171] 8) 7 rfl (by decide)).1,
    (c9_zero_width_write (Ostream.fresh [171] 8) 7 rfl (by decide)).2.2.1⟩

/-! ### Claim C10 -/

/-- C10: reseating the buffer handle via rdbuf(bb) unconditionally resets
the whole state mask - to good when bb is non-null and to bad-only when bb
is null - for every prior state, so attaching a buffer clears previously
recorded error bits without a clear call; the previous handle is
returned. -/
theorem c10_rdbuf_resets_state (io : Iob) (bb : Bitbuf) :
    (io.rdbuf_set (some bb)).2.m_state = goodbit ∧
      (io.rdbuf_set (some bb)).2.m_bitbuf = some bb ∧
      (io.rdbuf_set none).2.m_state = badbitOnly ∧
      (io.rdbuf_set none).2.m_bitbuf = none ∧
      (io.rdbuf_set (some bb)).1 = io.m_bitbuf :=
  ⟨rfl, rfl, rfl, rfl, rfl⟩

end Bitstream
